import Mathlib

/-!
Verification of the UniFi MAC filter viewer (`unifimacgui`).

Shallow embedding of the pure core of the repository:
`src/unifimacgui/client.py` (site / WLAN / known-device fetching and the
MAC labelling algorithm), `src/unifimacgui/gui.py` (`filter_entries`),
`src/unifimacgui/cli.py` (the CLI outcome around the composed fetch), and
`docs/oldscript.py` (`resolve_site_code`).

Python strings are modelled as `List Char`; `str.upper`/`str.lower`/
`str.strip` become character-wise maps and whitespace trimming, Python's
`in` substring test becomes an explicit scan, and Python string
comparison (used by `sorted`/`list.sort`) becomes code-point
lexicographic order.  Python dicts are modelled as insertion-ordered
association lists with overwrite-on-insert, matching CPython's
insertion-order semantics.  Remote JSON records are modelled as
structures with `Option`-valued fields (`none` covers a missing, null or
non-string field, which the code treats alike via `.get` /
`isinstance`).  HTTP fetching is factored out: each fetch function takes
the decoded `data` array of the corresponding endpoint as an argument.
Raised exceptions become `Except.error` with a structured payload
carrying the pieces interpolated into the Python message.
-/

/-- Python strings, modelled as their list of characters. -/
abbrev Str := List Char

/-- Coerce a Lean string literal into the model. -/
def str (s : String) : Str := s.data

/-- Python `str.upper` (character-wise, as for the ASCII data handled here). -/
def pyUpper (s : Str) : Str := s.map Char.toUpper

/-- Python `str.lower` (character-wise, as for the ASCII data handled here). -/
def pyLower (s : Str) : Str := s.map Char.toLower

/-- Python `str.strip`: drop leading and trailing whitespace. -/
def pyStrip (s : Str) : Str :=
  ((s.dropWhile Char.isWhitespace).reverse.dropWhile Char.isWhitespace).reverse

/-- Python `needle in hay` for strings: substring containment. -/
def pyContains (needle : Str) : Str → Bool
  | [] => needle.isEmpty
  | c :: rest => List.isPrefixOf needle (c :: rest) || pyContains needle rest

/-- Python string `<=`: code-point lexicographic order, as used by `sorted`. -/
def strLe : Str → Str → Bool
  | [], _ => true
  | _ :: _, [] => false
  | a :: as, b :: bs =>
    if a.toNat < b.toNat then true
    else if b.toNat < a.toNat then false
    else strLe as bs

/-- Python dict assignment `d[k] = v` on an insertion-ordered association
list: overwrite in place when the key exists, append otherwise. -/
def dictInsert {α : Type} (k : Str) (v : α) : List (Str × α) → List (Str × α)
  | [] => [(k, v)]
  | (k', v') :: rest => if k' = k then (k, v) :: rest else (k', v') :: dictInsert k v rest

/-- Python `d.get(k)`: the value stored under `k`, if any. -/
def dictGet {α : Type} : List (Str × α) → Str → Option α
  | [], _ => none
  | (k', v) :: rest, k => if k' = k then some v else dictGet rest k

/-- The keys of a dict, in insertion order (Python `list(d)`). -/
def dictKeys {α : Type} (d : List (Str × α)) : List Str := d.map Prod.fst

/-- Insert an element into an already sorted list just before the first
element it is `le`-below (helper of the stable sort). -/
def insertSorted {α : Type} (le : α → α → Bool) (a : α) : List α → List α
  | [] => [a]
  | b :: l => if le a b then a :: b :: l else b :: insertSorted le a l

/-- Stable sort by a boolean comparison, modelling Python's stable
`list.sort` / `sorted`. -/
def pySortBy {α : Type} (le : α → α → Bool) : List α → List α
  | [] => []
  | a :: l => insertSorted le a (pySortBy le l)

/-- A UniFi site as constructed by `UniFiClient.fetch_sites`. -/
structure Site where
  code : Str
  description : Str
deriving DecidableEq

/-- One element of the `data` array of `GET /api/self/sites`. -/
structure SiteRecord where
  name : Option Str
  desc : Option Str
deriving DecidableEq

/-- The `Site(...)` construction inside `fetch_sites`:
`code=item.get("name", "")`,
`description=item.get("desc") or item.get("name", "")`
(a missing or empty `desc` is falsy and falls back to the code). -/
def siteOfRecord (r : SiteRecord) : Site :=
  let code := r.name.getD []
  let description :=
    match r.desc with
    | some d => if d = [] then code else d
    | none => code
  ⟨code, description⟩

/-- `UniFiClient.fetch_sites`, applied to the decoded `data` array:
build the sites, then sort by case-insensitive description. -/
def fetch_sites (records : List SiteRecord) : List Site :=
  pySortBy (fun a b => strLe (pyLower a.description) (pyLower b.description))
    (records.map siteOfRecord)

/-- A WLAN profile as constructed by `UniFiClient.fetch_wlans`. -/
structure WlanProfile where
  name : Str
  mac_filter_list : List Str
deriving DecidableEq

/-- One element of the `data` array of `GET /api/s/{site}/rest/wlanconf`. -/
structure WlanRecord where
  name : Option Str
  mac_filter_list : Option (List Str)
deriving DecidableEq

/-- The per-record body of the `fetch_wlans` loop:
`macs = item.get("mac_filter_list") or []` (absent or null coerces to the
empty list) and `name=item.get("name", "")`. -/
def wlanOfRecord (r : WlanRecord) : WlanProfile :=
  ⟨r.name.getD [], r.mac_filter_list.getD []⟩

/-- `UniFiClient.fetch_wlans`, applied to the decoded `data` array:
build the profiles, then sort by case-insensitive name. -/
def fetch_wlans (records : List WlanRecord) : List WlanProfile :=
  pySortBy (fun a b => strLe (pyLower a.name) (pyLower b.name))
    (records.map wlanOfRecord)

/-- One element of the `data` array of `GET /api/s/{site}/stat/alluser`.
Each field is `none` when the key is missing, null, or not a string
(the code checks `isinstance(value, str)` and treats all three alike). -/
structure Device where
  mac : Option Str
  name : Option Str
  hostname : Option Str
  usergroup_name : Option Str
  oui : Option Str
deriving DecidableEq

/-- One iteration of the `_pick_name` loop: keep the stripped value when
it is a string and non-empty after stripping
(`isinstance(value, str) and value.strip()`). -/
def stripCandidate (v? : Option Str) : Option Str :=
  v?.bind (fun v => if pyStrip v = [] then none else some (pyStrip v))

/-- `_pick_name`: try `name`, `hostname`, `usergroup_name`, `oui` in that
order; return the first value that is a string and non-empty after
stripping, stripped; otherwise `None`. -/
def pick_name (d : Device) : Option Str :=
  List.findSome? stripCandidate [d.name, d.hostname, d.usergroup_name, d.oui]

/-- Body of the `fetch_known_devices` loop: take
`(device.get("mac") or "").upper()`, skip the device when that is empty,
then store `_pick_name(device)` under it when truthy. -/
def knownDeviceStep (mapping : List (Str × Str)) (device : Device) : List (Str × Str) :=
  let mac := pyUpper (device.mac.getD [])
  if mac = [] then mapping
  else
    match pick_name device with
    | some name => if name = [] then mapping else dictInsert mac name mapping
    | none => mapping

/-- `UniFiClient.fetch_known_devices`, applied to the decoded `data`
array: fold the loop body over the device records. -/
def fetch_known_devices (devices : List Device) : List (Str × Str) :=
  devices.foldl knownDeviceStep []

/-- The dict comprehension `{wlan.name: wlan for wlan in wlans}` of
`fetch_mac_filter_details` (later records overwrite earlier ones with
the same name, as in Python). -/
def wlanLookup (wlans : List WlanProfile) : List (Str × WlanProfile) :=
  wlans.foldl (fun m w => dictInsert w.name w m) []

/-- Payload of the `ValueError` raised by `fetch_mac_filter_details`:
the message is `f"WLAN '{wlan_name}' not found. Available: {available}"`
with `available = ", ".join(sorted(lookup))`. -/
structure WlanNotFound where
  requested : Str
  available : List Str
deriving DecidableEq

/-- `UniFiClient.fetch_mac_filter_details`, with the two HTTP payloads
passed in: fetch the WLANs, build the name-keyed dict, fail when the
requested name is absent (listing the sorted available names), otherwise
also fetch the known devices. -/
def fetch_mac_filter_details (wlanRecords : List WlanRecord) (deviceRecords : List Device)
    (wlan_name : Str) : Except WlanNotFound (WlanProfile × List (Str × Str)) :=
  let wlans := fetch_wlans wlanRecords
  let lookup := wlanLookup wlans
  match dictGet lookup wlan_name with
  | none => .error ⟨wlan_name, pySortBy strLe (dictKeys lookup)⟩
  | some w => .ok (w, fetch_known_devices deviceRecords)

/-- `label_mac_addresses`: for each MAC in order, uppercase it and look it
up in the known-device mapping, defaulting to `"Unknown"`. -/
def label_mac_addresses (macs : List Str) (known_devices : List (Str × Str)) :
    List (Str × Str) :=
  macs.map (fun mac =>
    let normalised := pyUpper mac
    (normalised, (dictGet known_devices normalised).getD (str "Unknown")))

/-- `filter_entries` from `gui.py`: the empty term keeps everything,
otherwise keep the entries whose lowercased MAC or name contains the
lowercased term. -/
def filter_entries (entries : List (Str × Str)) (term : Str) : List (Str × Str) :=
  if term = [] then entries
  else
    let needle := pyLower term
    entries.filter (fun e => pyContains needle (pyLower e.1) || pyContains needle (pyLower e.2))

/-- The outcome of the fetch-and-label portion of `run_cli` (lines 66-81
of `cli.py`), with the two HTTP payloads passed in: a raised error is
printed and exits 1 (`Except.error`), otherwise the labelled list is
produced and the exit code is 0 (`Except.ok`). -/
def run_cli_outcome (wlanRecords : List WlanRecord) (deviceRecords : List Device)
    (wlan_name : Str) : Except WlanNotFound (List (Str × Str)) :=
  (fetch_mac_filter_details wlanRecords deviceRecords wlan_name).map
    (fun p => label_mac_addresses p.1.mac_filter_list p.2)

/-- One element of the `data` array of `GET /api/self/sites` as consumed
by the legacy script, which indexes `site["desc"]` and `site["name"]`
directly (both keys present). -/
structure LegacySite where
  desc : Str
  name : Str
deriving DecidableEq

/-- Payload of the `ValueError` raised by `resolve_site_code`: the
message is `f"Site '{site_hint}' not found. Available: {descs}"` where
`descs` lists every site's `desc`. -/
structure SiteNotFound where
  requested : Str
  available : List Str
deriving DecidableEq

/-- `resolve_site_code` from `docs/oldscript.py`: return the `name`
(site code) of the first site whose lowercased `desc` or `name` equals
the lowercased hint; otherwise fail listing all descriptions. -/
def resolve_site_code (sites : List LegacySite) (site_hint : Str) :
    Except SiteNotFound Str :=
  match sites.find?
      (fun s => pyLower site_hint = pyLower s.desc ∨ pyLower site_hint = pyLower s.name) with
  | some s => .ok s.name
  | none => .error ⟨site_hint, sites.map (fun s => s.desc)⟩


/-! ### Helper lemmas: dicts -/

theorem dictGet_dictInsert {α : Type} (k : Str) (v : α) (d : List (Str × α)) (k' : Str) :
    dictGet (dictInsert k v d) k' = if k' = k then some v else dictGet d k' := by
  induction d with
  | nil =>
    by_cases h : k' = k
    · subst h; simp [dictInsert, dictGet]
    · have h' : ¬ k = k' := fun hh => h hh.symm
      simp [dictInsert, dictGet, h, h']
  | cons p rest ih =>
    obtain ⟨k₁, v₁⟩ := p
    by_cases h₁ : k₁ = k
    · subst h₁
      by_cases h₂ : k₁ = k'
      · subst h₂; simp [dictInsert, dictGet]
      · have h₂' : ¬ k' = k₁ := fun hh => h₂ hh.symm
        simp [dictInsert, dictGet, h₂, h₂']
    · by_cases h₂ : k₁ = k'
      · subst h₂
        have h₃ : ¬ k₁ = k := h₁
        have h₄ : ¬ k₁ = k := h₁
        simp [dictInsert, dictGet, h₃, fun hh => h₃ (hh : k₁ = k)]
      · simp [dictInsert, dictGet, h₁, h₂, ih]

theorem mem_dictKeys_dictInsert {α : Type} (k : Str) (v : α) (d : List (Str × α)) (x : Str) :
    x ∈ dictKeys (dictInsert k v d) ↔ x = k ∨ x ∈ dictKeys d := by
  induction d with
  | nil => simp [dictInsert, dictKeys]
  | cons p rest ih =>
    obtain ⟨k₁, v₁⟩ := p
    by_cases h₁ : k₁ = k
    · subst h₁
      have hstep : dictInsert k₁ v ((k₁, v₁) :: rest) = (k₁, v) :: rest := by
        simp [dictInsert]
      rw [hstep]
      simp only [dictKeys, List.map_cons, List.mem_cons]
      tauto
    · have hstep : dictInsert k v ((k₁, v₁) :: rest) = (k₁, v₁) :: dictInsert k v rest := by
        simp [dictInsert, h₁]
      rw [hstep]
      simp only [dictKeys, List.map_cons, List.mem_cons] at ih ⊢
      tauto

/-! ### Helper lemmas: the stable sort -/

theorem perm_insertSorted {α : Type} (le : α → α → Bool) (a : α) (l : List α) :
    (insertSorted le a l).Perm (a :: l) := by
  induction l with
  | nil => simp [insertSorted]
  | cons b l ih =>
    simp only [insertSorted]
    split
    · exact List.Perm.refl _
    · exact (ih.cons b).trans (List.Perm.swap a b l)

theorem perm_pySortBy {α : Type} (le : α → α → Bool) (l : List α) :
    (pySortBy le l).Perm l := by
  induction l with
  | nil => exact List.Perm.refl _
  | cons a l ih => exact (perm_insertSorted le a (pySortBy le l)).trans (ih.cons a)

theorem mem_pySortBy {α : Type} (le : α → α → Bool) (l : List α) (x : α) :
    x ∈ pySortBy le l ↔ x ∈ l :=
  (perm_pySortBy le l).mem_iff

theorem pairwise_insertSorted {α : Type} (le : α → α → Bool)
    (htrans : ∀ a b c, le a b = true → le b c = true → le a c = true)
    (htot : ∀ a b, (le a b || le b a) = true)
    (a : α) (l : List α) (hl : l.Pairwise (fun x y => le x y = true)) :
    (insertSorted le a l).Pairwise (fun x y => le x y = true) := by
  induction l with
  | nil => simp [insertSorted]
  | cons b l ih =>
    rw [List.pairwise_cons] at hl
    simp only [insertSorted]
    split
    · rename_i hab
      refine List.pairwise_cons.2 ⟨?_, List.pairwise_cons.2 hl⟩
      intro x hx
      rcases List.mem_cons.1 hx with rfl | hx
      · exact hab
      · exact htrans a b x hab (hl.1 x hx)
    · rename_i hab
      have hba : le b a = true := by
        have h := htot a b
        rcases Bool.or_eq_true_iff.1 h with h' | h'
        · exact absurd h' hab
        · exact h'
      refine List.pairwise_cons.2 ⟨?_, ih hl.2⟩
      intro x hx
      rcases List.mem_cons.1 ((perm_insertSorted le a l).mem_iff.1 hx) with rfl | hx'
      · exact hba
      · exact hl.1 x hx'

theorem pairwise_pySortBy {α : Type} (le : α → α → Bool)
    (htrans : ∀ a b c, le a b = true → le b c = true → le a c = true)
    (htot : ∀ a b, (le a b || le b a) = true) (l : List α) :
    (pySortBy le l).Pairwise (fun x y => le x y = true) := by
  induction l with
  | nil => simp [pySortBy]
  | cons a l ih => exact pairwise_insertSorted le htrans htot a (pySortBy le l) ih

/-! ### Helper lemmas: the string order -/

theorem strLe_total : ∀ a b : Str, (strLe a b || strLe b a) = true
  | [], b => by simp [strLe]
  | a :: as, [] => by simp [strLe]
  | a :: as, b :: bs => by
    simp only [strLe]
    rcases Nat.lt_trichotomy a.toNat b.toNat with h | h | h
    · simp [h]
    · simp only [h, Nat.lt_irrefl, if_false]
      exact strLe_total as bs
    · simp [h, Nat.lt_asymm h]

theorem strLe_trans : ∀ a b c : Str, strLe a b = true → strLe b c = true → strLe a c = true
  | [], _, _, _, _ => by simp [strLe]
  | _ :: _, [], _, h, _ => by simp [strLe] at h
  | _ :: _, _ :: _, [], _, h => by simp [strLe] at h
  | a :: as, b :: bs, c :: cs, h₁, h₂ => by
    simp only [strLe] at h₁ h₂ ⊢
    split_ifs at h₁ h₂ ⊢ <;> first
      | rfl
      | omega
      | simp at h₁
      | simp at h₂
      | exact strLe_trans as bs cs h₁ h₂

/-! ### Helper lemmas: the WLAN lookup dict and the known-device fold -/

theorem dictGet_wlanFold_some :
    ∀ (wlans : List WlanProfile) (init : List (Str × WlanProfile)) (name : Str)
      (w : WlanProfile),
      dictGet (wlans.foldl (fun m w => dictInsert w.name w m) init) name = some w →
      (w ∈ wlans ∧ w.name = name) ∨ dictGet init name = some w
  | [], init, name, w, h => Or.inr h
  | x :: xs, init, name, w, h => by
    rcases dictGet_wlanFold_some xs (dictInsert x.name x init) name w h with h' | h'
    · exact Or.inl ⟨List.mem_cons_of_mem _ h'.1, h'.2⟩
    · rw [dictGet_dictInsert] at h'
      by_cases hn : name = x.name
      · rw [if_pos hn] at h'
        cases h'
        exact Or.inl ⟨List.mem_cons_self _ _, hn.symm⟩
      · rw [if_neg hn] at h'
        exact Or.inr h'

theorem dictGet_wlanFold_none_iff :
    ∀ (wlans : List WlanProfile) (init : List (Str × WlanProfile)) (name : Str),
      dictGet (wlans.foldl (fun m w => dictInsert w.name w m) init) name = none ↔
      (∀ w ∈ wlans, w.name ≠ name) ∧ dictGet init name = none
  | [], init, name => by simp
  | x :: xs, init, name => by
    rw [List.foldl_cons, dictGet_wlanFold_none_iff xs (dictInsert x.name x init) name,
      dictGet_dictInsert]
    by_cases hn : name = x.name
    · rw [if_pos hn]
      simp only [List.mem_cons]
      constructor
      · rintro ⟨-, h⟩; cases h
      · rintro ⟨h, -⟩; exact absurd hn.symm (h x (Or.inl rfl))
    · rw [if_neg hn]
      simp only [List.mem_cons]
      constructor
      · rintro ⟨h₁, h₂⟩
        exact ⟨fun w hw => hw.elim (fun he => he ▸ fun hh => hn hh.symm) (h₁ w), h₂⟩
      · rintro ⟨h₁, h₂⟩
        exact ⟨fun w hw => h₁ w (Or.inr hw), h₂⟩

theorem mem_dictKeys_wlanFold :
    ∀ (wlans : List WlanProfile) (init : List (Str × WlanProfile)) (x : Str),
      x ∈ dictKeys (wlans.foldl (fun m w => dictInsert w.name w m) init) ↔
      (∃ w ∈ wlans, w.name = x) ∨ x ∈ dictKeys init
  | [], init, x => by simp
  | y :: ys, init, x => by
    rw [List.foldl_cons, mem_dictKeys_wlanFold ys (dictInsert y.name y init) x,
      mem_dictKeys_dictInsert]
    simp only [List.mem_cons]
    constructor
    · rintro (⟨w, hw, rfl⟩ | (rfl | h))
      · exact Or.inl ⟨w, Or.inr hw, rfl⟩
      · exact Or.inl ⟨y, Or.inl rfl, rfl⟩
      · exact Or.inr h
    · rintro (⟨w, (rfl | hw), rfl⟩ | h)
      · exact Or.inr (Or.inl rfl)
      · exact Or.inl ⟨w, hw, rfl⟩
      · exact Or.inr (Or.inr h)

theorem dictGet_wlanLookup_some (wlans : List WlanProfile) (name : Str) (w : WlanProfile)
    (h : dictGet (wlanLookup wlans) name = some w) : w ∈ wlans ∧ w.name = name := by
  rcases dictGet_wlanFold_some wlans [] name w h with h' | h'
  · exact h'
  · cases h'

theorem dictGet_wlanLookup_none_iff (wlans : List WlanProfile) (name : Str) :
    dictGet (wlanLookup wlans) name = none ↔ ∀ w ∈ wlans, w.name ≠ name := by
  rw [wlanLookup, dictGet_wlanFold_none_iff]
  simp [dictGet]

theorem mem_dictKeys_wlanLookup (wlans : List WlanProfile) (x : Str) :
    x ∈ dictKeys (wlanLookup wlans) ↔ ∃ w ∈ wlans, w.name = x := by
  rw [wlanLookup, mem_dictKeys_wlanFold]
  simp [dictKeys]

theorem knownDeviceStep_skip_mac (init : List (Str × Str)) (d : Device)
    (h : pyUpper (d.mac.getD []) = []) : knownDeviceStep init d = init := by
  simp [knownDeviceStep, h]

theorem knownDeviceStep_skip_name (init : List (Str × Str)) (d : Device)
    (h : pick_name d = none) : knownDeviceStep init d = init := by
  simp [knownDeviceStep, h]

theorem mem_dictKeys_knownFold :
    ∀ (devices : List Device) (init : List (Str × Str)) (k : Str),
      k ∈ dictKeys (devices.foldl knownDeviceStep init) →
      (k ≠ [] ∧ ∃ d ∈ devices, k = pyUpper (d.mac.getD [])) ∨ k ∈ dictKeys init
  | [], init, k, h => Or.inr h
  | d :: ds, init, k, h => by
    rw [List.foldl_cons] at h
    rcases mem_dictKeys_knownFold ds (knownDeviceStep init d) k h with ⟨hne, d', hd', hk⟩ | h'
    · exact Or.inl ⟨hne, d', List.mem_cons_of_mem _ hd', hk⟩
    · by_cases hm : pyUpper (d.mac.getD []) = []
      · rw [knownDeviceStep_skip_mac init d hm] at h'
        exact Or.inr h'
      · cases hp : pick_name d with
        | none =>
          rw [knownDeviceStep_skip_name init d hp] at h'
          exact Or.inr h'
        | some name =>
          by_cases hn : name = []
          · rw [show knownDeviceStep init d = init from by simp [knownDeviceStep, hp, hn]] at h'
            exact Or.inr h'
          · rw [show knownDeviceStep init d = dictInsert (pyUpper (d.mac.getD [])) name init
                from by simp [knownDeviceStep, hp, hn, hm]] at h'
            rcases (mem_dictKeys_dictInsert _ _ _ _).1 h' with rfl | h''
            · exact Or.inl ⟨hm, d, List.mem_cons_self _ _, rfl⟩
            · exact Or.inr h''

theorem stripCandidate_none (f : Option Str) (h : ∀ v, f = some v → pyStrip v = []) :
    stripCandidate f = none := by
  cases f with
  | none => rfl
  | some v => simp [stripCandidate, h v rfl]

theorem stripCandidate_some (f : Option Str) (v : Str) (hf : f = some v)
    (hne : pyStrip v ≠ []) : stripCandidate f = some (pyStrip v) := by
  simp [stripCandidate, hf, hne]

/-! ### Claim theorems -/

/-- C1: for every input sequence of MAC strings and every mapping,
`label_mac_addresses` returns a sequence of the same length, in the same
order, with no filtering and no deduplication, whose `i`-th entry's mac
field is the `i`-th input MAC normalized to uppercase. -/
theorem label_mac_addresses_order_preserving (macs : List Str) (known : List (Str × Str)) :
    (label_mac_addresses macs known).length = macs.length ∧
    ∀ i : Nat, ((label_mac_addresses macs known)[i]?).map Prod.fst = (macs[i]?).map pyUpper := by
  constructor
  · simp [label_mac_addresses]
  · intro i
    simp only [label_mac_addresses, List.getElem?_map]
    cases macs[i]? <;> simp

/-- C2: the `i`-th label produced by `label_mac_addresses` is the value
of the mapping at the uppercased `i`-th MAC when present and the literal
`"Unknown"` otherwise; in the unknown case no error is raised, the entry
is still produced and its label `"Unknown"` is non-empty. -/
theorem label_mac_addresses_lookup_fallback (macs : List Str) (known : List (Str × Str)) :
    (∀ i : Nat, ((label_mac_addresses macs known)[i]?).map Prod.snd
        = (macs[i]?).map (fun m => (dictGet known (pyUpper m)).getD (str "Unknown"))) ∧
    (∀ (i : Nat) (m : Str), macs[i]? = some m → dictGet known (pyUpper m) = none →
      (label_mac_addresses macs known)[i]? = some (pyUpper m, str "Unknown") ∧
        str "Unknown" ≠ ([] : Str)) := by
  constructor
  · intro i
    simp only [label_mac_addresses, List.getElem?_map]
    cases macs[i]? <;> simp
  · intro i m hm hget
    refine ⟨?_, by decide⟩
    simp [label_mac_addresses, List.getElem?_map, hm, hget]

/-- Witness for C2 at a concrete input: a MAC absent from an empty
mapping is labelled `"Unknown"`. -/
theorem label_mac_addresses_lookup_fallback_witness :
    (label_mac_addresses [str "aa:bb"] [])[0]? = some (pyUpper (str "aa:bb"), str "Unknown") ∧
      str "Unknown" ≠ ([] : Str) :=
  (label_mac_addresses_lookup_fallback [str "aa:bb"] []).2 0 (str "aa:bb") rfl rfl

/-- C8: filtering with the empty search term returns the entry list
unchanged, in content and order. -/
theorem filter_entries_identity (E : List (Str × Str)) :
    filter_entries E (str "") = E := by
  have h : str "" = ([] : Str) := rfl
  rw [h, filter_entries, if_pos rfl]

/-- C9: for a non-empty term, an entry is in the filtered list iff the
lowercased term occurs as a substring of its lowercased MAC or its
lowercased label, and the result is an order-preserving subsequence. -/
theorem filter_entries_substring (E : List (Str × Str)) (T : Str) (hT : T ≠ []) :
    (∀ e, e ∈ filter_entries E T ↔
        e ∈ E ∧
          (pyContains (pyLower T) (pyLower e.1) || pyContains (pyLower T) (pyLower e.2)) = true) ∧
    (filter_entries E T).Sublist E := by
  rw [filter_entries, if_neg hT]
  exact ⟨fun e => List.mem_filter, List.filter_sublist E⟩

/-- Witness for C9 at the spec's example entries with term `"printer"`:
the filtered list is a subsequence of the input. -/
theorem filter_entries_substring_witness :
    (filter_entries
        [(str "AA:BB:CC:DD:EE:FF", str "Printer"), (str "11:22:33:44:55:66", str "Kitchen Camera")]
        (str "printer")).Sublist
      [(str "AA:BB:CC:DD:EE:FF", str "Printer"), (str "11:22:33:44:55:66", str "Kitchen Camera")] :=
  (filter_entries_substring _ (str "printer") (by decide)).2

/-- C10: a site record whose `desc` field is missing or empty yields a
`Site` whose description equals its code (the record's `name` field,
defaulting to the empty string), and that site is among the fetched
sites — the description is never left missing. -/
theorem fetch_sites_description_fallback (records : List SiteRecord) (r : SiteRecord)
    (hr : r ∈ records) (hd : r.desc = none ∨ r.desc = some []) :
    (siteOfRecord r).description = (siteOfRecord r).code ∧
      (siteOfRecord r).code = r.name.getD [] ∧
      siteOfRecord r ∈ fetch_sites records := by
  refine ⟨?_, rfl, ?_⟩
  · rcases hd with h | h <;> simp [siteOfRecord, h]
  · rw [fetch_sites, mem_pySortBy]
    exact List.mem_map_of_mem _ hr

/-- Witness for C10 at a concrete record with code `"default"` and no
`desc` field. -/
theorem fetch_sites_description_fallback_witness :
    (siteOfRecord ⟨some (str "default"), none⟩).description
        = (siteOfRecord ⟨some (str "default"), none⟩).code ∧
      (siteOfRecord ⟨some (str "default"), none⟩).code
        = (Option.some (str "default")).getD [] ∧
      siteOfRecord ⟨some (str "default"), none⟩ ∈ fetch_sites [⟨some (str "default"), none⟩] :=
  fetch_sites_description_fallback [⟨some (str "default"), none⟩] ⟨some (str "default"), none⟩
    (List.mem_singleton.2 rfl) (Or.inl rfl)

/-- C3: the repository's site-resolution operation (`resolve_site_code`)
matches a free-text hint case-insensitively against either the
description or the code of any fetched site, returns a matching site
(by its code) when one exists, and fails with a not-found error listing
all available site descriptions when no site matches. -/
theorem resolve_site_code_matches (sites : List LegacySite) (hint : Str) :
    ((∃ s ∈ sites, pyLower hint = pyLower s.desc ∨ pyLower hint = pyLower s.name) →
      ∃ s ∈ sites, (pyLower hint = pyLower s.desc ∨ pyLower hint = pyLower s.name) ∧
        resolve_site_code sites hint = .ok s.name) ∧
    ((∀ s ∈ sites, pyLower hint ≠ pyLower s.desc ∧ pyLower hint ≠ pyLower s.name) →
      ∃ e : SiteNotFound, resolve_site_code sites hint = .error e ∧ e.requested = hint ∧
        e.available = sites.map (fun s => s.desc) ∧
        ∀ s ∈ sites, s.desc ∈ e.available) := by
  constructor
  · rintro ⟨s₀, hs₀, hm₀⟩
    rcases hfind : sites.find?
        (fun s => decide (pyLower hint = pyLower s.desc ∨ pyLower hint = pyLower s.name)) with
      _ | s
    · exfalso
      have h := List.find?_eq_none.1 hfind s₀ hs₀
      simp only [decide_eq_true_eq] at h
      exact h hm₀
    · have hmem := List.mem_of_find?_eq_some hfind
      have hp := List.find?_some hfind
      simp only [decide_eq_true_eq] at hp
      refine ⟨s, hmem, hp, ?_⟩
      unfold resolve_site_code
      rw [hfind]
  · intro hall
    rcases hfind : sites.find?
        (fun s => decide (pyLower hint = pyLower s.desc ∨ pyLower hint = pyLower s.name)) with
      _ | s
    · refine ⟨⟨hint, sites.map (fun s => s.desc)⟩, ?_, rfl, rfl, ?_⟩
      · unfold resolve_site_code
        rw [hfind]
      · intro s hs
        exact List.mem_map_of_mem _ hs
    · exfalso
      have hp := List.find?_some hfind
      simp only [decide_eq_true_eq] at hp
      have hno := hall s (List.mem_of_find?_eq_some hfind)
      rcases hp with h | h
      · exact hno.1 h
      · exact hno.2 h

/-- Witness for C3: the hint `"DEFAULT"` resolves against a site with
description `"Default"` and code `"default"`. -/
theorem resolve_site_code_matches_witness :
    ∃ s ∈ [LegacySite.mk (str "Default") (str "default")],
      (pyLower (str "DEFAULT") = pyLower s.desc ∨ pyLower (str "DEFAULT") = pyLower s.name) ∧
      resolve_site_code [LegacySite.mk (str "Default") (str "default")] (str "DEFAULT")
        = .ok s.name :=
  (resolve_site_code_matches [LegacySite.mk (str "Default") (str "default")]
    (str "DEFAULT")).1 (by decide)

/-- C5: `_pick_name` tries `name`, `hostname`, `usergroup_name`, `oui`
in strict priority order, selecting the first whose value is a string
that is non-empty after trimming whitespace; when no field qualifies the
device contributes no entry to the known-device mapping. -/
theorem pick_name_priority (d : Device) :
    (∀ v, d.name = some v → pyStrip v ≠ [] → pick_name d = some (pyStrip v)) ∧
    ((∀ v, d.name = some v → pyStrip v = []) →
      ∀ v, d.hostname = some v → pyStrip v ≠ [] → pick_name d = some (pyStrip v)) ∧
    ((∀ v, d.name = some v → pyStrip v = []) → (∀ v, d.hostname = some v → pyStrip v = []) →
      ∀ v, d.usergroup_name = some v → pyStrip v ≠ [] → pick_name d = some (pyStrip v)) ∧
    ((∀ v, d.name = some v → pyStrip v = []) → (∀ v, d.hostname = some v → pyStrip v = []) →
      (∀ v, d.usergroup_name = some v → pyStrip v = []) →
      ∀ v, d.oui = some v → pyStrip v ≠ [] → pick_name d = some (pyStrip v)) ∧
    ((∀ v, d.name = some v → pyStrip v = []) → (∀ v, d.hostname = some v → pyStrip v = []) →
      (∀ v, d.usergroup_name = some v → pyStrip v = []) →
      (∀ v, d.oui = some v → pyStrip v = []) → pick_name d = none) ∧
    (pick_name d = none → ∀ l₁ l₂ : List Device,
      fetch_known_devices (l₁ ++ d :: l₂) = fetch_known_devices (l₁ ++ l₂)) := by
  refine ⟨?_, ?_, ?_, ?_, ?_, ?_⟩
  · intro v hv hne
    simp [pick_name, List.findSome?_cons, stripCandidate_some _ _ hv hne]
  · intro h₁ v hv hne
    simp [pick_name, List.findSome?_cons, stripCandidate_none _ h₁,
      stripCandidate_some _ _ hv hne]
  · intro h₁ h₂ v hv hne
    simp [pick_name, List.findSome?_cons, stripCandidate_none _ h₁, stripCandidate_none _ h₂,
      stripCandidate_some _ _ hv hne]
  · intro h₁ h₂ h₃ v hv hne
    simp [pick_name, List.findSome?_cons, stripCandidate_none _ h₁, stripCandidate_none _ h₂,
      stripCandidate_none _ h₃, stripCandidate_some _ _ hv hne]
  · intro h₁ h₂ h₃ h₄
    simp [pick_name, List.findSome?_cons, stripCandidate_none _ h₁, stripCandidate_none _ h₂,
      stripCandidate_none _ h₃, stripCandidate_none _ h₄]
  · intro h l₁ l₂
    simp only [fetch_known_devices, List.foldl_append, List.foldl_cons,
      knownDeviceStep_skip_name _ _ h]

/-- Witness for C5 at the spec's example: a device with
`hostname="host1"` and `oui="Vendor"` (and no `name`) resolves to
`"host1"`. -/
theorem pick_name_priority_witness :
    pick_name ⟨some (str "aa:bb"), none, some (str "host1"), none, some (str "Vendor")⟩
      = some (pyStrip (str "host1")) :=
  (pick_name_priority _).2.1 (fun v h => by simp at h) (str "host1") rfl (by decide)

/-- C6: every key of the mapping returned by `fetch_known_devices` is a
non-empty string equal to the uppercase normalization of some device's
MAC field; a device whose MAC is missing or empty after normalization
contributes nothing and is dropped silently, not an error. -/
theorem fetch_known_devices_key_shape (devices : List Device) :
    (∀ k, k ∈ dictKeys (fetch_known_devices devices) →
      k ≠ [] ∧ ∃ d ∈ devices, k = pyUpper (d.mac.getD [])) ∧
    (∀ (d : Device) (l₁ l₂ : List Device), pyUpper (d.mac.getD []) = [] →
      fetch_known_devices (l₁ ++ d :: l₂) = fetch_known_devices (l₁ ++ l₂)) := by
  constructor
  · intro k hk
    rcases mem_dictKeys_knownFold devices [] k hk with h | h
    · exact h
    · simp [dictKeys] at h
  · intro d l₁ l₂ h
    simp only [fetch_known_devices, List.foldl_append, List.foldl_cons,
      knownDeviceStep_skip_mac _ _ h]

/-- Witness for C6: with one device of MAC `"aa:bb"` named `"Laptop"`,
the key `"AA:BB"` is non-empty and is the uppercased MAC of a device. -/
theorem fetch_known_devices_key_shape_witness :
    str "AA:BB" ≠ ([] : Str) ∧
      ∃ d ∈ [Device.mk (some (str "aa:bb")) (some (str "Laptop")) none none none],
        str "AA:BB" = pyUpper (d.mac.getD []) :=
  (fetch_known_devices_key_shape
      [Device.mk (some (str "aa:bb")) (some (str "Laptop")) none none none]).1
    (str "AA:BB") (by decide)

/-- C4: `fetch_mac_filter_details` looks the WLAN up by exact
case-sensitive name match among the fetched profiles, succeeding with
such a profile (plus the known-device mapping) exactly when one exists,
and otherwise fails with a not-found error whose payload enumerates
every actually-available profile name, sorted. -/
theorem fetch_mac_filter_details_exact_lookup (wlanRecords : List WlanRecord)
    (deviceRecords : List Device) (wlan_name : Str) :
    ((∃ w ∈ fetch_wlans wlanRecords, w.name = wlan_name) →
      ∃ w, fetch_mac_filter_details wlanRecords deviceRecords wlan_name =
          .ok (w, fetch_known_devices deviceRecords) ∧
        w ∈ fetch_wlans wlanRecords ∧ w.name = wlan_name) ∧
    ((∀ w ∈ fetch_wlans wlanRecords, w.name ≠ wlan_name) →
      ∃ e : WlanNotFound,
        fetch_mac_filter_details wlanRecords deviceRecords wlan_name = .error e ∧
        e.requested = wlan_name ∧
        (∀ w ∈ fetch_wlans wlanRecords, w.name ∈ e.available) ∧
        (∀ n ∈ e.available, ∃ w ∈ fetch_wlans wlanRecords, w.name = n) ∧
        e.available.Pairwise (fun a b => strLe a b = true)) := by
  constructor
  · rintro ⟨w₀, hw₀, hn₀⟩
    rcases hget : dictGet (wlanLookup (fetch_wlans wlanRecords)) wlan_name with _ | w
    · exact absurd hn₀ ((dictGet_wlanLookup_none_iff _ _).1 hget w₀ hw₀)
    · obtain ⟨hmem, hname⟩ := dictGet_wlanLookup_some _ _ _ hget
      refine ⟨w, ?_, hmem, hname⟩
      simp [fetch_mac_filter_details, hget]
  · intro hall
    have hget : dictGet (wlanLookup (fetch_wlans wlanRecords)) wlan_name = none :=
      (dictGet_wlanLookup_none_iff _ _).2 hall
    refine ⟨⟨wlan_name, pySortBy strLe (dictKeys (wlanLookup (fetch_wlans wlanRecords)))⟩,
      ?_, rfl, ?_, ?_, ?_⟩
    · simp [fetch_mac_filter_details, hget]
    · intro w hw
      show w.name ∈ pySortBy strLe (dictKeys (wlanLookup (fetch_wlans wlanRecords)))
      rw [mem_pySortBy]
      exact (mem_dictKeys_wlanLookup _ _).2 ⟨w, hw, rfl⟩
    · intro n hn
      rw [show (WlanNotFound.mk wlan_name
            (pySortBy strLe (dictKeys (wlanLookup (fetch_wlans wlanRecords))))).available
          = pySortBy strLe (dictKeys (wlanLookup (fetch_wlans wlanRecords))) from rfl,
        mem_pySortBy] at hn
      exact (mem_dictKeys_wlanLookup _ _).1 hn
    · exact pairwise_pySortBy strLe strLe_trans strLe_total _

/-- Witness for C4: requesting the WLAN `"Nope"` when only `"Guest"`
exists yields the not-found error enumerating the available names. -/
theorem fetch_mac_filter_details_exact_lookup_witness :
    ∃ e : WlanNotFound,
      fetch_mac_filter_details [WlanRecord.mk (some (str "Guest")) none] [] (str "Nope")
          = .error e ∧
      e.requested = str "Nope" ∧
      (∀ w ∈ fetch_wlans [WlanRecord.mk (some (str "Guest")) none], w.name ∈ e.available) ∧
      (∀ n ∈ e.available,
        ∃ w ∈ fetch_wlans [WlanRecord.mk (some (str "Guest")) none], w.name = n) ∧
      e.available.Pairwise (fun a b => strLe a b = true) :=
  (fetch_mac_filter_details_exact_lookup [WlanRecord.mk (some (str "Guest")) none] []
    (str "Nope")).2 (by decide)

/-- C7: a remote WLAN record with an absent (or null) `mac_filter_list`
coerces to a profile with an empty filter list rather than an error, and
the composed CLI flow over a WLAN whose filter list is empty produces an
empty labelled sequence with the exit-0 outcome. -/
theorem absent_filter_list_empty_success (wlanRecords : List WlanRecord)
    (deviceRecords : List Device) (wlan_name : Str) :
    (∀ r : WlanRecord, r.mac_filter_list = none → (wlanOfRecord r).mac_filter_list = []) ∧
    ((∃ w ∈ fetch_wlans wlanRecords, w.name = wlan_name) →
      (∀ w ∈ fetch_wlans wlanRecords, w.name = wlan_name → w.mac_filter_list = []) →
      run_cli_outcome wlanRecords deviceRecords wlan_name = .ok []) := by
  constructor
  · intro r h
    simp [wlanOfRecord, h]
  · rintro ⟨w₀, hw₀, hn₀⟩ hall
    rcases hget : dictGet (wlanLookup (fetch_wlans wlanRecords)) wlan_name with _ | w
    · exact absurd hn₀ ((dictGet_wlanLookup_none_iff _ _).1 hget w₀ hw₀)
    · obtain ⟨hmem, hname⟩ := dictGet_wlanLookup_some _ _ _ hget
      have hempty : w.mac_filter_list = [] := hall w hmem hname
      simp [run_cli_outcome, fetch_mac_filter_details, hget, Except.map, hempty,
        label_mac_addresses]

/-- Witness for C7: one WLAN record named `"Guest"` with no
`mac_filter_list` field gives the empty labelled list and exit 0. -/
theorem absent_filter_list_empty_success_witness :
    run_cli_outcome [WlanRecord.mk (some (str "Guest")) none] [] (str "Guest") = .ok [] :=
  (absent_filter_list_empty_success [WlanRecord.mk (some (str "Guest")) none] []
    (str "Guest")).2 (by decide) (by decide)
